import Mathlib

/-!
Verification of the persistence layer of the aios-chat repository
(src-tauri/src/db/schema.rs, db/threads.rs, db/messages.rs, db/mod.rs,
commands/settings.rs, credentials.rs) against its natural-language
specification.

Modelling conventions:
* SQLite tables are lists of row structures; the single guarded
  connection is modelled by explicit state passing (the mutex serializes
  all access, so sequential state passing is the observable semantics).
* `Utc::now()` is modelled by a logical clock in the state: each call
  returns the current clock value and strictly advances it (real wall
  clocks are non-decreasing across the sequential calls made under the
  connection lock; strict increase models their nanosecond resolution).
* RFC 3339 timestamps produced by `DateTime<Utc>::to_rfc3339` are
  fixed-width texts whose byte-wise (memcmp) order coincides with
  chronological order; they are modelled as 20-digit zero-padded decimal
  renderings of the clock. `String::parse::<DateTime<Utc>>` is modelled
  by the exact inverse parser, which fails on any other text.
* `Uuid::new_v4` yields globally unique ids (collisions have
  probability 0); it is modelled by an injective counter-based
  generator, matching the freshness the code relies on.
* `serde_json::Value` is modelled by the `Json` inductive below with
  executable rendering (`serde_json::to_string`) and parsing
  (`serde_json::from_str`). The model covers null, booleans, integer
  numbers, strings, arrays and objects; floating-point numbers,
  `\u` escapes and inter-token whitespace acceptance of the real
  parser are outside the model (the repository never produces them
  in the texts the claims quantify over).
-/

/-! ### Characters and digits -/

def quoteChar : Char := Char.ofNat 34

def backslashChar : Char := Char.ofNat 92

def lbraceChar : Char := Char.ofNat 123

def rbraceChar : Char := Char.ofNat 125

/-- The decimal digit character for `n % 10`. -/
def decDigit (n : Nat) : Char :=
  match n % 10 with
  | 0 => '0'
  | 1 => '1'
  | 2 => '2'
  | 3 => '3'
  | 4 => '4'
  | 5 => '5'
  | 6 => '6'
  | 7 => '7'
  | 8 => '8'
  | _ => '9'

def isDigitChar (c : Char) : Bool :=
  decide (48 ≤ c.toNat ∧ c.toNat ≤ 57)

/-- Numeric value of a list of decimal digit characters (most
significant first). -/
def digitsVal (cs : List Char) : Nat :=
  cs.foldl (fun n c => n * 10 + (c.toNat - 48)) 0

/-- Exactly `k` decimal digits of `n`, zero-padded, most significant
first. -/
def fixedDigits : Nat → Nat → List Char
  | 0, _ => []
  | k + 1, n => fixedDigits k (n / 10) ++ [decDigit n]

/-- Minimal decimal digits of `n` (no leading zeros, `"0"` for zero),
via structural fuel so that the kernel can evaluate it. -/
def natDigsAux : Nat → Nat → List Char
  | 0, _ => []
  | fuel + 1, n =>
    if n < 10 then [decDigit n] else natDigsAux fuel (n / 10) ++ [decDigit n]

def natDigs (n : Nat) : List Char := natDigsAux (n + 1) n

/-! ### SQLite BINARY collation (memcmp) on text -/

/-- Byte-wise strict comparison of two character lists, as SQLite's
default BINARY collation compares TEXT values. -/
def textLt : List Char → List Char → Bool
  | _, [] => false
  | [], _ :: _ => true
  | a :: as, b :: bs =>
    a.toNat < b.toNat || (a.toNat == b.toNat && textLt as bs)

/-! ### Timestamps

`to_rfc3339` / `parse::<DateTime<Utc>>` modelled as a fixed-width
injective rendering of the logical clock and its exact inverse. -/

def renderTime (n : Nat) : String := String.mk (fixedDigits 20 n)

def parseTime (s : String) : Option Nat :=
  if s.data.length = 20 && s.data.all isDigitChar then
    some (digitsVal s.data)
  else none

/-- `Uuid::new_v4().to_string()` modelled as an injective fresh-id
generator driven by a counter in the state. -/
def uuidString (n : Nat) : String := String.mk (natDigs n)

/-! ### Basic lemmas about digits and timestamps -/

theorem digitChar_toNat (n : Nat) : (decDigit n).toNat = 48 + n % 10 := by
  have h : n % 10 < 10 := Nat.mod_lt _ (by omega)
  have h10 : n % 10 = 0 ∨ n % 10 = 1 ∨ n % 10 = 2 ∨ n % 10 = 3 ∨ n % 10 = 4 ∨
      n % 10 = 5 ∨ n % 10 = 6 ∨ n % 10 = 7 ∨ n % 10 = 8 ∨ n % 10 = 9 := by omega
  rcases h10 with h'|h'|h'|h'|h'|h'|h'|h'|h'|h' <;> simp [decDigit, h']

theorem isDigitChar_digitChar (n : Nat) : isDigitChar (decDigit n) = true := by
  have h : n % 10 < 10 := Nat.mod_lt _ (by omega)
  simp [isDigitChar, digitChar_toNat]
  omega

theorem padDigits_length (k n : Nat) : (fixedDigits k n).length = k := by
  induction k generalizing n with
  | zero => rfl
  | succ k ih => simp [fixedDigits, ih]

theorem padDigits_all_digits (k n : Nat) :
    (fixedDigits k n).all isDigitChar = true := by
  induction k generalizing n with
  | zero => rfl
  | succ k ih => simp [fixedDigits, ih, isDigitChar_digitChar]

theorem digitsVal_append_single (cs : List Char) (c : Char) :
    digitsVal (cs ++ [c]) = digitsVal cs * 10 + (c.toNat - 48) := by
  simp [digitsVal, List.foldl_append]

theorem digitsVal_padDigits (k n : Nat) (h : n < 10 ^ k) :
    digitsVal (fixedDigits k n) = n := by
  induction k generalizing n with
  | zero =>
    simp [fixedDigits, digitsVal]
    omega
  | succ k ih =>
    have hdiv : n / 10 < 10 ^ k := by
      rw [Nat.div_lt_iff_lt_mul (by omega)]
      calc n < 10 ^ (k + 1) := h
        _ = 10 ^ k * 10 := by ring
    rw [fixedDigits, digitsVal_append_single, ih _ hdiv, digitChar_toNat]
    omega

theorem parseTime_renderTime (n : Nat) (h : n < 10 ^ 20) :
    parseTime (renderTime n) = some n := by
  simp [parseTime, renderTime, padDigits_length, padDigits_all_digits,
    digitsVal_padDigits 20 n h]

theorem textLt_asymm (a b : List Char) (h : textLt a b = true) :
    textLt b a = false := by
  induction a generalizing b with
  | nil =>
    cases b with
    | nil => simp [textLt] at h
    | cons c cs => simp [textLt]
  | cons c cs ih =>
    cases b with
    | nil => simp [textLt] at h
    | cons d ds =>
      simp [textLt] at h ⊢
      rcases h with h | ⟨he, ht⟩
      · exact ⟨by omega, fun hdc => absurd hdc (by omega)⟩
      · exact ⟨by omega, fun _ => ih ds ht⟩

theorem textLt_append_left (a b s t : List Char) (hlen : a.length = b.length)
    (h : textLt a b = true) : textLt (a ++ s) (b ++ t) = true := by
  induction a generalizing b with
  | nil =>
    cases b with
    | nil => simp [textLt] at h
    | cons d ds => simp at hlen
  | cons c cs ih =>
    cases b with
    | nil => simp at hlen
    | cons d ds =>
      simp [textLt] at h ⊢
      rcases h with h | ⟨he, ht⟩
      · exact Or.inl h
      · exact Or.inr ⟨he, ih ds (by simpa using hlen) ht⟩

theorem textLt_append_same (a s t : List Char) :
    textLt (a ++ s) (a ++ t) = textLt s t := by
  induction a with
  | nil => rfl
  | cons c cs ih => simp [textLt, ih]

theorem textLt_padDigits (k m n : Nat) (hmn : m < n) (hn : n < 10 ^ k) :
    textLt (fixedDigits k m) (fixedDigits k n) = true := by
  induction k generalizing m n with
  | zero => omega
  | succ k ih =>
    rw [fixedDigits, fixedDigits]
    rcases Nat.lt_or_ge (m / 10) (n / 10) with hdiv | hdiv
    · have hnk : n / 10 < 10 ^ k := by
        rw [Nat.div_lt_iff_lt_mul (by omega)]
        calc n < 10 ^ (k + 1) := hn
          _ = 10 ^ k * 10 := by ring
      exact textLt_append_left _ _ _ _ (by simp [padDigits_length]) (ih _ _ hdiv hnk)
    · have heq : m / 10 = n / 10 := by omega
      rw [heq, textLt_append_same]
      have hm10 : m % 10 < n % 10 := by omega
      simp [textLt, digitChar_toNat]
      omega

theorem textLt_renderTime (m n : Nat) (hmn : m < n) (hn : n < 10 ^ 20) :
    textLt (renderTime m).data (renderTime n).data = true := by
  simpa [renderTime] using textLt_padDigits 20 m n hmn hn

/-! ### ORDER BY: insertion sort keyed by a boolean comparison -/

def insertSorted {α : Type} (le : α → α → Bool) (x : α) : List α → List α
  | [] => [x]
  | y :: ys => if le x y then x :: y :: ys else y :: insertSorted le x ys

def sortByLe {α : Type} (le : α → α → Bool) : List α → List α
  | [] => []
  | x :: xs => insertSorted le x (sortByLe le xs)

theorem mem_insertSorted {α : Type} (le : α → α → Bool) (x y : α)
    (l : List α) : y ∈ insertSorted le x l ↔ y = x ∨ y ∈ l := by
  induction l with
  | nil => simp [insertSorted]
  | cons z zs ih =>
    by_cases h : le x z = true
    · simp [insertSorted, h]
    · simp [insertSorted, h, ih]
      tauto

theorem mem_sortByLe {α : Type} (le : α → α → Bool) (y : α) (l : List α) :
    y ∈ sortByLe le l ↔ y ∈ l := by
  induction l with
  | nil => simp [sortByLe]
  | cons x xs ih => simp [sortByLe, mem_insertSorted, ih]

theorem sortByLe_eq_self {α : Type} (le : α → α → Bool) (l : List α)
    (h : l.Pairwise (fun a b => le a b = true)) : sortByLe le l = l := by
  induction l with
  | nil => rfl
  | cons x xs ih =>
    rw [List.pairwise_cons] at h
    rw [sortByLe, ih h.2]
    cases xs with
    | nil => rfl
    | cons y ys => simp [insertSorted, h.1 y (by simp)]

/-! ### JSON values (`serde_json::Value`) -/

inductive Json where
  | Null : Json
  | Bool (b : Bool) : Json
  | Number (n : Int) : Json
  | String (s : String) : Json
  | Array (items : List Json) : Json
  | Object (entries : List (String × Json)) : Json

/-- String escaping as performed by `serde_json::to_string`. -/
def escapeChar (c : Char) : List Char :=
  if c = quoteChar then [backslashChar, quoteChar]
  else if c = backslashChar then [backslashChar, backslashChar]
  else if c = Char.ofNat 10 then [backslashChar, 'n']
  else if c = Char.ofNat 9 then [backslashChar, 't']
  else if c = Char.ofNat 13 then [backslashChar, 'r']
  else [c]

def escapeChars : List Char → List Char
  | [] => []
  | c :: cs => escapeChar c ++ escapeChars cs

def renderString (s : String) : List Char :=
  quoteChar :: (escapeChars s.data ++ [quoteChar])

def renderInt (i : Int) : List Char :=
  if i < 0 then '-' :: natDigs i.natAbs else natDigs i.natAbs

mutual

/-- Compact JSON rendering, as `serde_json::to_string` produces it. -/
def renderJson : Json → List Char
  | .Null => ['n', 'u', 'l', 'l']
  | .Bool true => ['t', 'r', 'u', 'e']
  | .Bool false => ['f', 'a', 'l', 's', 'e']
  | .Number i => renderInt i
  | .String s => renderString s
  | .Array [] => ['[', ']']
  | .Array (x :: xs) => '[' :: ((renderJson x ++ renderElemsTail xs) ++ [']'])
  | .Object [] => [lbraceChar, rbraceChar]
  | .Object ((k, v) :: kvs) =>
    lbraceChar ::
      ((renderString k ++ ':' :: (renderJson v ++ renderFieldsTail kvs)) ++ [rbraceChar])

def renderElemsTail : List Json → List Char
  | [] => []
  | x :: xs => ',' :: (renderJson x ++ renderElemsTail xs)

def renderFieldsTail : List (String × Json) → List Char
  | [] => []
  | (k, v) :: kvs =>
    ',' :: (renderString k ++ ':' :: (renderJson v ++ renderFieldsTail kvs))

end

def renderJsonString (v : Json) : String := String.mk (renderJson v)

/-- Escape sequences accepted by the JSON string parser. -/
def unescapeChar (c : Char) : Option Char :=
  if c = quoteChar then some quoteChar
  else if c = backslashChar then some backslashChar
  else if c = '/' then some '/'
  else if c = 'n' then some (Char.ofNat 10)
  else if c = 't' then some (Char.ofNat 9)
  else if c = 'r' then some (Char.ofNat 13)
  else if c = 'b' then some (Char.ofNat 8)
  else if c = 'f' then some (Char.ofNat 12)
  else none

/-- Parse the body of a JSON string after the opening quote, returning
the unescaped characters and the text after the closing quote. -/
def parseStringBody : List Char → Option (List Char × List Char)
  | [] => none
  | c :: cs =>
    if c = quoteChar then some ([], cs)
    else if c = backslashChar then
      match cs with
      | [] => none
      | e :: cs2 =>
        match unescapeChar e with
        | some d =>
          match parseStringBody cs2 with
          | some (body, rest) => some (d :: body, rest)
          | none => none
        | none => none
    else
      match parseStringBody cs with
      | some (body, rest) => some (c :: body, rest)
      | none => none
termination_by l => l.length

/-- Greedily split off the leading run of decimal digits. -/
def digitSpan : List Char → List Char × List Char
  | [] => ([], [])
  | c :: cs =>
    if isDigitChar c then
      let p := digitSpan cs
      (c :: p.1, p.2)
    else ([], c :: cs)

def dropLit : List Char → List Char → Option (List Char)
  | [], l => some l
  | _ :: _, [] => none
  | p :: ps, c :: cs => if c = p then dropLit ps cs else none

mutual

/-- Recursive-descent JSON value parser (`serde_json::from_str`), with
structural fuel so that the kernel can evaluate it. -/
def parseVal : Nat → List Char → Option (Json × List Char)
  | 0, _ => none
  | _ + 1, [] => none
  | fuel + 1, c :: cs =>
    if c = 'n' then
      match dropLit ['u', 'l', 'l'] cs with
      | some rest => some (.Null, rest)
      | none => none
    else if c = 't' then
      match dropLit ['r', 'u', 'e'] cs with
      | some rest => some (.Bool true, rest)
      | none => none
    else if c = 'f' then
      match dropLit ['a', 'l', 's', 'e'] cs with
      | some rest => some (.Bool false, rest)
      | none => none
    else if c = quoteChar then
      match parseStringBody cs with
      | some (body, rest) => some (.String (String.mk body), rest)
      | none => none
    else if isDigitChar c then
      let p := digitSpan (c :: cs)
      some (.Number (Int.ofNat (digitsVal p.1)), p.2)
    else if c = '-' then
      match digitSpan cs with
      | ([], _) => none
      | (d :: ds, rest) => some (.Number (-(Int.ofNat (digitsVal (d :: ds)))), rest)
    else if c = '[' then
      match cs with
      | [] => none
      | d :: cs2 =>
        if d = ']' then some (.Array [], cs2)
        else
          match parseVal fuel (d :: cs2) with
          | some (v, r) =>
            match parseElemsTail fuel r with
            | some (vs, r2) => some (.Array (v :: vs), r2)
            | none => none
          | none => none
    else if c = lbraceChar then
      match cs with
      | [] => none
      | d :: cs2 =>
        if d = rbraceChar then some (.Object [], cs2)
        else if d = quoteChar then
          match parseStringBody cs2 with
          | some (key, r1) =>
            match r1 with
            | ':' :: r2 =>
              match parseVal fuel r2 with
              | some (v, r3) =>
                match parseFieldsTail fuel r3 with
                | some (fs, r4) => some (.Object ((String.mk key, v) :: fs), r4)
                | none => none
              | none => none
            | _ => none
          | none => none
        else none
    else none

/-- After one array element: either `]` closes the array or `,`
introduces the next element. -/
def parseElemsTail : Nat → List Char → Option (List Json × List Char)
  | 0, _ => none
  | _ + 1, [] => none
  | fuel + 1, c :: cs =>
    if c = ']' then some ([], cs)
    else if c = ',' then
      match parseVal fuel cs with
      | some (v, r) =>
        match parseElemsTail fuel r with
        | some (vs, r2) => some (v :: vs, r2)
        | none => none
      | none => none
    else none

/-- After one object field: either the closing brace or `,` plus the
next `"key":value` pair. -/
def parseFieldsTail : Nat → List Char → Option (List (String × Json) × List Char)
  | 0, _ => none
  | _ + 1, [] => none
  | fuel + 1, c :: cs =>
    if c = rbraceChar then some ([], cs)
    else if c = ',' then
      match cs with
      | [] => none
      | q :: cs2 =>
        if q = quoteChar then
          match parseStringBody cs2 with
          | some (key, r1) =>
            match r1 with
            | ':' :: r2 =>
              match parseVal fuel r2 with
              | some (v, r3) =>
                match parseFieldsTail fuel r3 with
                | some (fs, r4) => some ((String.mk key, v) :: fs, r4)
                | none => none
              | none => none
            | _ => none
          | none => none
        else none
    else none

end

/-- `serde_json::from_str::<Value>`: parse a complete JSON text. -/
def parseJson (s : String) : Option Json :=
  match parseVal (2 * s.data.length + 2) s.data with
  | some (v, []) => some v
  | _ => none

/-- `serde_json::from_str::<Vec<Value>>`: the stored `tool_invocations`
column must decode as a JSON array. -/
def parseToolInvocations (s : String) : Option (List Json) :=
  match parseJson s with
  | some (.Array xs) => some xs
  | _ => none

mutual

/-- Node-count measure used to show the parser is given enough fuel. -/
def jsize : Json → Nat
  | .Null => 1
  | .Bool _ => 1
  | .Number _ => 1
  | .String _ => 1
  | .Array xs => 1 + jsizeList xs
  | .Object kvs => 1 + jsizeFields kvs

def jsizeList : List Json → Nat
  | [] => 1
  | x :: xs => 1 + jsize x + jsizeList xs

def jsizeFields : List (String × Json) → Nat
  | [] => 1
  | (_, v) :: kvs => 1 + jsize v + jsizeFields kvs

end

/-! ### Parser support lemmas -/

/-- True when the text does not start with a decimal digit, so a greedy
digit scan stops at its front. -/
def headFreeOfDigit : List Char → Bool
  | [] => true
  | c :: _ => !(isDigitChar c)

theorem dropLit_self (ps rest : List Char) : dropLit ps (ps ++ rest) = some rest := by
  induction ps with
  | nil => rfl
  | cons p ps ih => simp [dropLit, ih]

theorem takeDigits_append (ds rest : List Char)
    (hds : ∀ c ∈ ds, isDigitChar c = true) (hrest : headFreeOfDigit rest = true) :
    digitSpan (ds ++ rest) = (ds, rest) := by
  induction ds with
  | nil =>
    cases rest with
    | nil => rfl
    | cons c cs =>
      simp [headFreeOfDigit] at hrest
      simp [digitSpan, hrest]
  | cons d ds ih =>
    have hd : isDigitChar d = true := hds d (by simp)
    simp [digitSpan, hd, ih (fun c hc => hds c (by simp [hc]))]

theorem natDigsAux_spec (fuel n : Nat) (h : n < fuel) :
    natDigsAux fuel n ≠ [] ∧ (∀ c ∈ natDigsAux fuel n, isDigitChar c = true) ∧
      digitsVal (natDigsAux fuel n) = n := by
  induction fuel generalizing n with
  | zero => omega
  | succ fuel ih =>
    by_cases h10 : n < 10
    · refine ⟨by simp [natDigsAux, h10], ?_, ?_⟩
      · simp [natDigsAux, h10, isDigitChar_digitChar]
      · simp [natDigsAux, h10, digitsVal, digitChar_toNat]
    · have hrec := ih (n / 10) (by omega)
      refine ⟨by simp [natDigsAux, h10], ?_, ?_⟩
      · simp only [natDigsAux, if_neg h10]
        intro c hc
        rcases List.mem_append.mp hc with hc | hc
        · exact hrec.2.1 c hc
        · simp at hc
          simp [hc, isDigitChar_digitChar]
      · simp only [natDigsAux, if_neg h10]
        rw [digitsVal_append_single, hrec.2.2, digitChar_toNat]
        omega

theorem natDigs_ne_nil (n : Nat) : natDigs n ≠ [] :=
  (natDigsAux_spec (n + 1) n (by omega)).1

theorem natDigs_digits (n : Nat) : ∀ c ∈ natDigs n, isDigitChar c = true :=
  (natDigsAux_spec (n + 1) n (by omega)).2.1

theorem digitsVal_natDigs (n : Nat) : digitsVal (natDigs n) = n :=
  (natDigsAux_spec (n + 1) n (by omega)).2.2

theorem parseStringBody_quote (cs : List Char) :
    parseStringBody (quoteChar :: cs) = some ([], cs) := by
  rw [parseStringBody.eq_def]
  simp

theorem parseStringBody_escSeq (e : Char) (cs : List Char) :
    parseStringBody (backslashChar :: e :: cs) =
      match unescapeChar e with
      | some d =>
        match parseStringBody cs with
        | some (body, rest) => some (d :: body, rest)
        | none => none
      | none => none := by
  rw [parseStringBody.eq_def]
  simp +decide

theorem parseStringBody_other (c : Char) (cs : List Char) (h1 : ¬ c = quoteChar)
    (h2 : ¬ c = backslashChar) :
    parseStringBody (c :: cs) =
      match parseStringBody cs with
      | some (body, rest) => some (c :: body, rest)
      | none => none := by
  rw [parseStringBody.eq_def]
  simp [h1, h2]

theorem parseStringBody_escape (cs rest : List Char) :
    parseStringBody (escapeChars cs ++ quoteChar :: rest) = some (cs, rest) := by
  induction cs with
  | nil => simpa [escapeChars] using parseStringBody_quote rest
  | cons c cs ih =>
    by_cases h1 : c = quoteChar
    · subst h1
      rw [show escapeChars (quoteChar :: cs) = [backslashChar, quoteChar] ++ escapeChars cs
        from by simp [escapeChars, escapeChar]]
      simp only [List.cons_append, List.append_assoc, List.nil_append]
      rw [parseStringBody_escSeq]
      simp +decide [unescapeChar, ih]
    · by_cases h2 : c = backslashChar
      · subst h2
        rw [show escapeChars (backslashChar :: cs) =
            [backslashChar, backslashChar] ++ escapeChars cs
          from by simp +decide [escapeChars, escapeChar]]
        simp only [List.cons_append, List.append_assoc, List.nil_append]
        rw [parseStringBody_escSeq]
        simp +decide [unescapeChar, ih]
      · by_cases h3 : c = Char.ofNat 10
        · subst h3
          rw [show escapeChars (Char.ofNat 10 :: cs) =
              [backslashChar, 'n'] ++ escapeChars cs
            from by simp +decide [escapeChars, escapeChar]]
          simp only [List.cons_append, List.append_assoc, List.nil_append]
          rw [parseStringBody_escSeq]
          simp +decide [unescapeChar, ih]
        · by_cases h4 : c = Char.ofNat 9
          · subst h4
            rw [show escapeChars (Char.ofNat 9 :: cs) =
                [backslashChar, 't'] ++ escapeChars cs
              from by simp +decide [escapeChars, escapeChar]]
            simp only [List.cons_append, List.append_assoc, List.nil_append]
            rw [parseStringBody_escSeq]
            simp +decide [unescapeChar, ih]
          · by_cases h5 : c = Char.ofNat 13
            · subst h5
              rw [show escapeChars (Char.ofNat 13 :: cs) =
                  [backslashChar, 'r'] ++ escapeChars cs
                from by simp +decide [escapeChars, escapeChar]]
              simp only [List.cons_append, List.append_assoc, List.nil_append]
              rw [parseStringBody_escSeq]
              simp +decide [unescapeChar, ih]
            · rw [show escapeChars (c :: cs) = c :: escapeChars cs
                from by simp [escapeChars, escapeChar, h1, h2, h3, h4, h5]]
              simp only [List.cons_append]
              rw [parseStringBody_other c _ h1 h2]
              simp [ih]

theorem stringMk_data (s : String) : String.mk s.data = s := rfl

theorem jsize_pos (v : Json) : 1 ≤ jsize v := by
  cases v <;> simp [jsize]

theorem jsizeList_pos (xs : List Json) : 1 ≤ jsizeList xs := by
  cases xs with
  | nil => simp [jsizeList]
  | cons x xs =>
    simp [jsizeList]
    omega

theorem jsizeFields_pos (kvs : List (String × Json)) : 1 ≤ jsizeFields kvs := by
  cases kvs with
  | nil => simp [jsizeFields]
  | cons kv kvs =>
    obtain ⟨k, v⟩ := kv
    simp [jsizeFields]
    omega

theorem renderJson_head (v : Json) :
    ∃ c cs, renderJson v = c :: cs ∧ ¬ c = ']' := by
  cases v with
  | Null => exact ⟨'n', _, rfl, by decide⟩
  | Bool b => cases b
              · exact ⟨'f', _, rfl, by decide⟩
              · exact ⟨'t', _, rfl, by decide⟩
  | Number i =>
    by_cases hneg : i < 0
    · exact ⟨'-', natDigs i.natAbs, by simp [renderJson, renderInt, hneg], by decide⟩
    · obtain ⟨d, ds, hds⟩ := List.exists_cons_of_ne_nil (natDigs_ne_nil i.natAbs)
      refine ⟨d, ds, by simp [renderJson, renderInt, hneg, hds], ?_⟩
      have hdig := natDigs_digits i.natAbs d (by simp [hds])
      intro he
      subst he
      exact absurd hdig (by decide)
  | String s => exact ⟨quoteChar, _, rfl, by decide⟩
  | Array xs =>
    cases xs with
    | nil => exact ⟨'[', _, rfl, by decide⟩
    | cons x xs => exact ⟨'[', _, rfl, by decide⟩
  | Object kvs =>
    cases kvs with
    | nil => exact ⟨lbraceChar, _, rfl, by decide⟩
    | cons kv kvs =>
      obtain ⟨k, v⟩ := kv
      exact ⟨lbraceChar, _, rfl, by decide⟩

theorem headFree_elems (xs : List Json) (rest : List Char) :
    headFreeOfDigit (renderElemsTail xs ++ (']' :: rest)) = true := by
  cases xs with
  | nil =>
    simp only [renderElemsTail, List.nil_append, headFreeOfDigit]
    decide
  | cons x xs =>
    simp only [renderElemsTail, List.cons_append, headFreeOfDigit]
    decide

theorem headFree_fields (kvs : List (String × Json)) (rest : List Char) :
    headFreeOfDigit (renderFieldsTail kvs ++ (rbraceChar :: rest)) = true := by
  cases kvs with
  | nil =>
    simp only [renderFieldsTail, List.nil_append, headFreeOfDigit]
    decide
  | cons kv kvs =>
    obtain ⟨k, v⟩ := kv
    simp only [renderFieldsTail, List.cons_append, headFreeOfDigit]
    decide

/-! ### Unfolding lemmas for the parser, one per dispatch branch -/

theorem parseVal_null (fuel : Nat) (cs : List Char) :
    parseVal (fuel + 1) ('n' :: cs) =
      match dropLit ['u', 'l', 'l'] cs with
      | some rest => some (.Null, rest)
      | none => none := by
  simp only [parseVal]
  simp +decide

theorem parseVal_true (fuel : Nat) (cs : List Char) :
    parseVal (fuel + 1) ('t' :: cs) =
      match dropLit ['r', 'u', 'e'] cs with
      | some rest => some (.Bool true, rest)
      | none => none := by
  simp only [parseVal]
  simp +decide

theorem parseVal_false (fuel : Nat) (cs : List Char) :
    parseVal (fuel + 1) ('f' :: cs) =
      match dropLit ['a', 'l', 's', 'e'] cs with
      | some rest => some (.Bool false, rest)
      | none => none := by
  simp only [parseVal]
  simp +decide

theorem parseVal_str (fuel : Nat) (cs : List Char) :
    parseVal (fuel + 1) (quoteChar :: cs) =
      match parseStringBody cs with
      | some (body, rest) => some (.String (String.mk body), rest)
      | none => none := by
  simp only [parseVal]
  simp +decide

theorem parseVal_digit (fuel : Nat) (c : Char) (cs : List Char)
    (h : isDigitChar c = true) :
    parseVal (fuel + 1) (c :: cs) =
      some (.Number (Int.ofNat (digitsVal (digitSpan (c :: cs)).1)),
        (digitSpan (c :: cs)).2) := by
  have h1 : ¬ c = 'n' := fun he => absurd h (by subst he; decide)
  have h2 : ¬ c = 't' := fun he => absurd h (by subst he; decide)
  have h3 : ¬ c = 'f' := fun he => absurd h (by subst he; decide)
  have h4 : ¬ c = quoteChar := fun he => absurd h (by subst he; decide)
  simp only [parseVal]
  simp [h1, h2, h3, h4, h]

theorem parseVal_neg (fuel : Nat) (cs : List Char) :
    parseVal (fuel + 1) ('-' :: cs) =
      match digitSpan cs with
      | ([], _) => none
      | (d :: ds, rest) => some (.Number (-(Int.ofNat (digitsVal (d :: ds)))), rest) := by
  simp only [parseVal]
  simp +decide

theorem parseVal_arrNil (fuel : Nat) (cs : List Char) :
    parseVal (fuel + 1) ('[' :: ']' :: cs) = some (.Array [], cs) := by
  simp only [parseVal]
  simp +decide

theorem parseVal_arrCons (fuel : Nat) (d : Char) (cs : List Char) (hd : ¬ d = ']') :
    parseVal (fuel + 1) ('[' :: d :: cs) =
      match parseVal fuel (d :: cs) with
      | some (v, r) =>
        match parseElemsTail fuel r with
        | some (vs, r2) => some (.Array (v :: vs), r2)
        | none => none
      | none => none := by
  simp only [parseVal]
  simp +decide [hd]

theorem parseVal_objNil (fuel : Nat) (cs : List Char) :
    parseVal (fuel + 1) (lbraceChar :: rbraceChar :: cs) = some (.Object [], cs) := by
  simp only [parseVal]
  simp +decide

theorem parseVal_objCons (fuel : Nat) (cs : List Char) :
    parseVal (fuel + 1) (lbraceChar :: quoteChar :: cs) =
      match parseStringBody cs with
      | some (key, r1) =>
        match r1 with
        | ':' :: r2 =>
          match parseVal fuel r2 with
          | some (v, r3) =>
            match parseFieldsTail fuel r3 with
            | some (fs, r4) => some (.Object ((String.mk key, v) :: fs), r4)
            | none => none
          | none => none
        | _ => none
      | none => none := by
  simp only [parseVal]
  simp +decide

theorem parseElemsTail_close (fuel : Nat) (cs : List Char) :
    parseElemsTail (fuel + 1) (']' :: cs) = some ([], cs) := by
  simp only [parseElemsTail]
  simp

theorem parseElemsTail_comma (fuel : Nat) (cs : List Char) :
    parseElemsTail (fuel + 1) (',' :: cs) =
      match parseVal fuel cs with
      | some (v, r) =>
        match parseElemsTail fuel r with
        | some (vs, r2) => some (v :: vs, r2)
        | none => none
      | none => none := by
  simp only [parseElemsTail]
  simp +decide

theorem parseFieldsTail_close (fuel : Nat) (cs : List Char) :
    parseFieldsTail (fuel + 1) (rbraceChar :: cs) = some ([], cs) := by
  simp only [parseFieldsTail]
  simp

theorem parseFieldsTail_comma (fuel : Nat) (cs : List Char) :
    parseFieldsTail (fuel + 1) (',' :: quoteChar :: cs) =
      match parseStringBody cs with
      | some (key, r1) =>
        match r1 with
        | ':' :: r2 =>
          match parseVal fuel r2 with
          | some (v, r3) =>
            match parseFieldsTail fuel r3 with
            | some (fs, r4) => some ((String.mk key, v) :: fs, r4)
            | none => none
          | none => none
        | _ => none
      | none => none := by
  simp only [parseFieldsTail]
  simp +decide

/-- Parsing inverts rendering, given fuel at least the node count and a
continuation that does not begin with a digit. -/
theorem parse_render (fuel : Nat) :
    (∀ v rest, jsize v ≤ fuel → headFreeOfDigit rest = true →
      parseVal fuel (renderJson v ++ rest) = some (v, rest)) ∧
    (∀ xs rest, jsizeList xs ≤ fuel →
      parseElemsTail fuel (renderElemsTail xs ++ (']' :: rest)) = some (xs, rest)) ∧
    (∀ kvs rest, jsizeFields kvs ≤ fuel →
      parseFieldsTail fuel (renderFieldsTail kvs ++ (rbraceChar :: rest)) =
        some (kvs, rest)) := by
  induction fuel with
  | zero =>
    refine ⟨fun v rest hsz _ => absurd hsz (by have := jsize_pos v; omega),
      fun xs rest hsz => absurd hsz (by have := jsizeList_pos xs; omega),
      fun kvs rest hsz => absurd hsz (by have := jsizeFields_pos kvs; omega)⟩
  | succ fuel ih =>
    obtain ⟨ihV, ihE, ihF⟩ := ih
    refine ⟨?_, ?_, ?_⟩
    · intro v rest hsz hrest
      cases v with
      | Null =>
        show parseVal (fuel + 1) ('n' :: (['u', 'l', 'l'] ++ rest)) =
          some (Json.Null, rest)
        rw [parseVal_null, dropLit_self]
      | Bool b =>
        cases b
        · show parseVal (fuel + 1) ('f' :: (['a', 'l', 's', 'e'] ++ rest)) =
            some (Json.Bool false, rest)
          rw [parseVal_false, dropLit_self]
        · show parseVal (fuel + 1) ('t' :: (['r', 'u', 'e'] ++ rest)) =
            some (Json.Bool true, rest)
          rw [parseVal_true, dropLit_self]
      | Number i =>
        by_cases hneg : i < 0
        · obtain ⟨d, ds, hds⟩ := List.exists_cons_of_ne_nil (natDigs_ne_nil i.natAbs)
          have hrw : renderJson (.Number i) ++ rest = '-' :: (natDigs i.natAbs ++ rest) := by
            simp [renderJson, renderInt, hneg]
          have hval : digitsVal (d :: ds) = i.natAbs := by
            rw [← hds, digitsVal_natDigs]
          rw [hrw, parseVal_neg, takeDigits_append _ _ (natDigs_digits _) hrest, hds]
          simp [hval]
          rw [abs_of_neg hneg]
          omega
        · obtain ⟨d, ds, hds⟩ := List.exists_cons_of_ne_nil (natDigs_ne_nil i.natAbs)
          have hrw : renderJson (.Number i) ++ rest = d :: (ds ++ rest) := by
            simp [renderJson, renderInt, hneg, hds]
          have hdig : isDigitChar d = true := natDigs_digits i.natAbs d (by simp [hds])
          have htd : digitSpan (d :: (ds ++ rest)) = (natDigs i.natAbs, rest) := by
            rw [show d :: (ds ++ rest) = (d :: ds) ++ rest by simp, ← hds]
            exact takeDigits_append _ _ (natDigs_digits _) hrest
          rw [hrw, parseVal_digit fuel d (ds ++ rest) hdig, htd]
          simp [digitsVal_natDigs]
          omega
      | String s =>
        have hrw : renderJson (.String s) ++ rest =
            quoteChar :: (escapeChars s.data ++ (quoteChar :: rest)) := by
          simp [renderJson, renderString]
        rw [hrw, parseVal_str, parseStringBody_escape]
      | Array xs =>
        cases xs with
        | nil =>
          show parseVal (fuel + 1) ('[' :: ']' :: rest) = some (Json.Array [], rest)
          rw [parseVal_arrNil]
        | cons x xs =>
          obtain ⟨c, cs, hc, hcne⟩ := renderJson_head x
          have hx : jsize x ≤ fuel := by
            have h1 := jsizeList_pos xs
            simp [jsize, jsizeList] at hsz
            omega
          have hxs : jsizeList xs ≤ fuel := by
            have h1 := jsize_pos x
            simp [jsize, jsizeList] at hsz
            omega
          have hrw : renderJson (.Array (x :: xs)) ++ rest =
              '[' :: (c :: (cs ++ (renderElemsTail xs ++ (']' :: rest)))) := by
            simp [renderJson, hc]
          have hval : parseVal fuel (c :: (cs ++ (renderElemsTail xs ++ (']' :: rest)))) =
              some (x, renderElemsTail xs ++ (']' :: rest)) := by
            rw [show c :: (cs ++ (renderElemsTail xs ++ (']' :: rest))) =
                renderJson x ++ (renderElemsTail xs ++ (']' :: rest)) by simp [hc]]
            exact ihV x _ hx (headFree_elems xs rest)
          rw [hrw, parseVal_arrCons fuel c _ hcne, hval]
          simp [ihE xs rest hxs]
      | Object kvs =>
        cases kvs with
        | nil =>
          show parseVal (fuel + 1) (lbraceChar :: rbraceChar :: rest) =
            some (Json.Object [], rest)
          rw [parseVal_objNil]
        | cons kv kvs =>
          obtain ⟨k, v⟩ := kv
          have hv : jsize v ≤ fuel := by
            have h1 := jsizeFields_pos kvs
            simp [jsize, jsizeFields] at hsz
            omega
          have hkvs : jsizeFields kvs ≤ fuel := by
            have h1 := jsize_pos v
            simp [jsize, jsizeFields] at hsz
            omega
          have hrw : renderJson (.Object ((k, v) :: kvs)) ++ rest =
              lbraceChar :: (quoteChar :: (escapeChars k.data ++ (quoteChar ::
                (':' :: (renderJson v ++
                  (renderFieldsTail kvs ++ (rbraceChar :: rest))))))) := by
            simp [renderJson, renderString]
          rw [hrw, parseVal_objCons, parseStringBody_escape]
          simp [ihV v _ hv (headFree_fields kvs rest), ihF kvs rest hkvs, stringMk_data]
    · intro xs rest hsz
      cases xs with
      | nil =>
        show parseElemsTail (fuel + 1) (']' :: rest) = some ([], rest)
        rw [parseElemsTail_close]
      | cons x xs =>
        have hx : jsize x ≤ fuel := by
          have h1 := jsizeList_pos xs
          simp [jsizeList] at hsz
          omega
        have hxs : jsizeList xs ≤ fuel := by
          have h1 := jsize_pos x
          simp [jsizeList] at hsz
          omega
        have hrw : renderElemsTail (x :: xs) ++ (']' :: rest) =
            ',' :: (renderJson x ++ (renderElemsTail xs ++ (']' :: rest))) := by
          simp [renderElemsTail]
        rw [hrw, parseElemsTail_comma]
        simp [ihV x _ hx (headFree_elems xs rest), ihE xs rest hxs]
    · intro kvs rest hsz
      cases kvs with
      | nil =>
        show parseFieldsTail (fuel + 1) (rbraceChar :: rest) = some ([], rest)
        rw [parseFieldsTail_close]
      | cons kv kvs =>
        obtain ⟨k, v⟩ := kv
        have hv : jsize v ≤ fuel := by
          have h1 := jsizeFields_pos kvs
          simp [jsizeFields] at hsz
          omega
        have hkvs : jsizeFields kvs ≤ fuel := by
          have h1 := jsize_pos v
          simp [jsizeFields] at hsz
          omega
        have hrw : renderFieldsTail ((k, v) :: kvs) ++ (rbraceChar :: rest) =
            ',' :: (quoteChar :: (escapeChars k.data ++ (quoteChar ::
              (':' :: (renderJson v ++
                (renderFieldsTail kvs ++ (rbraceChar :: rest))))))) := by
          simp [renderFieldsTail, renderString]
        rw [hrw, parseFieldsTail_comma, parseStringBody_escape]
        simp [ihV v _ hv (headFree_fields kvs rest), ihF kvs rest hkvs, stringMk_data]

theorem stringData_mk (l : List Char) : (String.mk l).data = l := rfl

theorem sizeOf_json_pos (v : Json) : 0 < sizeOf v := by
  cases v <;> simp

theorem sizeOf_list_pos {α : Type} [SizeOf α] (l : List α) : 0 < sizeOf l := by
  cases l <;> simp

/-- The parser fuel chosen from the input length suffices for any text
produced by the renderer: the node count is at most twice the length. -/
theorem jsize_le_two_len (n : Nat) :
    (∀ v : Json, sizeOf v ≤ n → jsize v ≤ 2 * (renderJson v).length) ∧
    (∀ xs : List Json, sizeOf xs ≤ n →
      jsizeList xs ≤ 2 * (renderElemsTail xs).length + 2) ∧
    (∀ kvs : List (String × Json), sizeOf kvs ≤ n →
      jsizeFields kvs ≤ 2 * (renderFieldsTail kvs).length + 2) := by
  induction n with
  | zero =>
    refine ⟨fun v hsz => absurd hsz (by have := sizeOf_json_pos v; omega),
      fun xs hsz => absurd hsz (by have := sizeOf_list_pos xs; omega),
      fun kvs hsz => absurd hsz (by have := sizeOf_list_pos kvs; omega)⟩
  | succ n ih =>
    obtain ⟨ihV, ihE, ihF⟩ := ih
    refine ⟨?_, ?_, ?_⟩
    · intro v hsz
      cases v with
      | Null => simp [jsize, renderJson]
      | Bool b => cases b <;> simp [jsize, renderJson]
      | Number i =>
        have hne : renderInt i ≠ [] := by
          unfold renderInt
          by_cases hneg : i < 0
          · simp [hneg]
          · simp [hneg, natDigs_ne_nil]
        have hlen : 0 < (renderInt i).length := List.length_pos.mpr hne
        simp [jsize, renderJson]
        omega
      | String s =>
        simp [jsize, renderJson, renderString]
        omega
      | Array xs =>
        cases xs with
        | nil => simp [jsize, jsizeList, renderJson]
        | cons x xs =>
          have hszx : sizeOf x ≤ n := by
            have h1 := sizeOf_list_pos xs
            simp at hsz
            omega
          have hszxs : sizeOf xs ≤ n := by
            have h1 := sizeOf_json_pos x
            simp at hsz
            omega
          have hx := ihV x hszx
          have hxs := ihE xs hszxs
          simp [jsize, jsizeList, renderJson]
          omega
      | Object kvs =>
        cases kvs with
        | nil => simp [jsize, jsizeFields, renderJson]
        | cons kv kvs =>
          obtain ⟨k, v⟩ := kv
          have hszv : sizeOf v ≤ n := by
            have h1 := sizeOf_list_pos kvs
            simp at hsz
            omega
          have hszkvs : sizeOf kvs ≤ n := by
            have h1 := sizeOf_json_pos v
            simp at hsz
            omega
          have hv := ihV v hszv
          have hkvs := ihF kvs hszkvs
          simp [jsize, jsizeFields, renderJson, renderString]
          omega
    · intro xs hsz
      cases xs with
      | nil => simp [jsizeList, renderElemsTail]
      | cons x xs =>
        have hszx : sizeOf x ≤ n := by
          have h1 := sizeOf_list_pos xs
          simp at hsz
          omega
        have hszxs : sizeOf xs ≤ n := by
          have h1 := sizeOf_json_pos x
          simp at hsz
          omega
        have hx := ihV x hszx
        have hxs := ihE xs hszxs
        simp [jsizeList, renderElemsTail]
        omega
    · intro kvs hsz
      cases kvs with
      | nil => simp [jsizeFields, renderFieldsTail]
      | cons kv kvs =>
        obtain ⟨k, v⟩ := kv
        have hszv : sizeOf v ≤ n := by
          have h1 := sizeOf_list_pos kvs
          simp at hsz
          omega
        have hszkvs : sizeOf kvs ≤ n := by
          have h1 := sizeOf_json_pos v
          simp at hsz
          omega
        have hv := ihV v hszv
        have hkvs := ihF kvs hszkvs
        simp [jsizeFields, renderFieldsTail, renderString]
        omega

/-- Full serialize-then-parse round trip for a JSON value. -/
theorem parseJson_render (v : Json) : parseJson (renderJsonString v) = some v := by
  unfold parseJson renderJsonString
  rw [stringData_mk]
  have hfuel : jsize v ≤ 2 * (renderJson v).length + 2 := by
    have := (jsize_le_two_len (sizeOf v)).1 v le_rfl
    omega
  have h := (parse_render (2 * (renderJson v).length + 2)).1 v [] hfuel (by rfl)
  rw [List.append_nil] at h
  rw [h]

/-- Round trip for the stored `tool_invocations` column: rendering a
`Vec<Value>` and parsing it back yields the original list. -/
theorem parseToolInvocations_render (xs : List Json) :
    parseToolInvocations (renderJsonString (Json.Array xs)) = some xs := by
  unfold parseToolInvocations
  rw [parseJson_render]

/-! ### Database rows and in-memory records

Rows mirror the SQLite tables exactly (all columns TEXT, timestamps as
stored text, `tool_invocations` a nullable TEXT column); `Thread` /
`Message` mirror the Rust structs returned to callers. -/

structure ThreadRow where
  id : String
  title : Option String
  created_at : String
  updated_at : String

structure MessageRow where
  id : String
  thread_id : String
  role : String
  content : String
  tool_invocations : Option String
  created_at : String

structure SettingsRow where
  tool_call_id : String
  settings_key : String
  submitted_at : String

structure Thread where
  id : String
  title : Option String
  created_at : Nat
  updated_at : Nat

structure Message where
  id : String
  thread_id : String
  role : String
  content : String
  tool_invocations : Option (List Json)
  created_at : Nat

structure NewMessage where
  role : String
  content : String
  tool_invocations : Option (List Json)

/-- The single SQLite file plus connection-session state.  The `threads`
and `messages` tables always exist here because every connection passes
through `Database::new`, which runs `schema::init` before the state is
observable.  `settings = none` models the `settings_submissions` table
being absent from the file; `schema::init` never creates it.
`fkEnabled` is the session's `PRAGMA foreign_keys` flag; `clock` is the
logical `Utc::now()` clock and `uuidCtr` drives fresh UUIDs. -/
structure DbState where
  threads : List ThreadRow
  messages : List MessageRow
  settings : Option (List SettingsRow)
  fkEnabled : Bool
  clock : Nat
  uuidCtr : Nat

/-- Session-level effect of `schema::init` (db/schema.rs): the two
`CREATE TABLE IF NOT EXISTS` statements are no-ops on this state (the
tables always exist here), `PRAGMA foreign_keys = ON` is applied, and
the `tool_invocations` column migration only changes table metadata
(modelled separately by `init` on `SchemaState`).  Note that no
statement touches `settings`. -/
def initDb (s : DbState) : DbState := { s with fkEnabled := true }

/-- db/threads.rs `update_thread_timestamp`: one `Utc::now()`, then
`UPDATE threads SET updated_at = ?1 WHERE id = ?2`. -/
def update_thread_timestamp (s : DbState) (id : String) : DbState :=
  { s with
    threads := s.threads.map fun t =>
      if t.id = id then { t with updated_at := renderTime s.clock } else t,
    clock := s.clock + 1 }

/-- db/threads.rs `create_thread`: fresh UUID, one `Utc::now()`, insert
`(id, NULL, now, now)`, return the materialized `Thread`. -/
def create_thread (s : DbState) : Thread × DbState :=
  (⟨uuidString s.uuidCtr, none, s.clock, s.clock⟩,
   { s with
     threads := s.threads ++
       [⟨uuidString s.uuidCtr, none, renderTime s.clock, renderTime s.clock⟩],
     clock := s.clock + 1,
     uuidCtr := s.uuidCtr + 1 })

/-- Row-to-struct conversion shared by the thread queries: timestamps
are parsed with `unwrap_or_else(|_| Utc::now())`. -/
def rowToThread (now : Nat) (r : ThreadRow) : Thread :=
  ⟨r.id, r.title, (parseTime r.created_at).getD now, (parseTime r.updated_at).getD now⟩

/-- db/threads.rs `get_thread`: `SELECT ... WHERE id = ?1` via
`query_row`; `QueryReturnedNoRows` becomes `Ok(None)`. -/
def get_thread (s : DbState) (id : String) : Except String (Option Thread) :=
  .ok ((s.threads.find? fun t => t.id == id).map (rowToThread s.clock))

/-- `ORDER BY updated_at DESC` comparison on the stored text. -/
def thrDesc (a b : ThreadRow) : Bool := !(textLt a.updated_at.data b.updated_at.data)

/-- db/threads.rs `list_threads`: `SELECT ... ORDER BY updated_at DESC`. -/
def list_threads (s : DbState) : Except String (List Thread) :=
  .ok ((sortByLe thrDesc s.threads).map (rowToThread s.clock))

/-- db/threads.rs `update_thread_title`: one `Utc::now()`, then
`UPDATE threads SET title = ?1, updated_at = ?2 WHERE id = ?3`
(a no-op when no row matches). -/
def update_thread_title (s : DbState) (id title : String) : DbState :=
  { s with
    threads := s.threads.map fun t =>
      if t.id = id then { t with title := some title, updated_at := renderTime s.clock }
      else t,
    clock := s.clock + 1 }

/-- db/threads.rs `delete_thread`: `DELETE FROM threads WHERE id = ?1`.
With `PRAGMA foreign_keys = ON`, deleting a thread row cascades to its
messages (`ON DELETE CASCADE` in db/schema.rs); with the pragma off no
cascade fires. -/
def delete_thread (s : DbState) (id : String) : DbState :=
  { s with
    threads := s.threads.filter fun t => !(t.id == id),
    messages :=
      if s.fkEnabled && s.threads.any (fun t => t.id == id) then
        s.messages.filter fun m => !(m.thread_id == id)
      else s.messages }

/-- db/messages.rs `save_message`: fresh UUID, one `Utc::now()`,
serialize `tool_invocations` if present, `INSERT INTO messages ...`
(which fails with a referential-integrity error when the session
enforces foreign keys and no thread row matches, mutating nothing),
then `update_thread_timestamp`, then return the materialized
`Message`. -/
def save_message (s : DbState) (tid : String) (m : NewMessage) :
    Except String Message × DbState :=
  if s.fkEnabled && !(s.threads.any fun t => t.id == tid) then
    (.error "FOREIGN KEY constraint failed", s)
  else
    (.ok ⟨uuidString s.uuidCtr, tid, m.role, m.content, m.tool_invocations, s.clock⟩,
     update_thread_timestamp
       { s with
         messages := s.messages ++
           [⟨uuidString s.uuidCtr, tid, m.role, m.content,
             m.tool_invocations.map (fun ti => renderJsonString (Json.Array ti)),
             renderTime s.clock⟩],
         clock := s.clock + 1,
         uuidCtr := s.uuidCtr + 1 }
       tid)

/-- Row-to-struct conversion in `get_messages`: the stored
`tool_invocations` text is decoded with `serde_json::from_str(..).ok()`
(undecodable text degrades to `None`), the timestamp with
`parse().unwrap_or_else(|_| Utc::now())`. -/
def rowToMessage (now : Nat) (r : MessageRow) : Message :=
  ⟨r.id, r.thread_id, r.role, r.content, r.tool_invocations.bind parseToolInvocations,
   (parseTime r.created_at).getD now⟩

/-- `ORDER BY created_at ASC` comparison on the stored text. -/
def msgAsc (a b : MessageRow) : Bool := !(textLt b.created_at.data a.created_at.data)

/-- db/messages.rs `get_messages`:
`SELECT ... WHERE thread_id = ?1 ORDER BY created_at ASC`, each row
converted by `rowToMessage`; the row mapper itself never fails. -/
def get_messages (s : DbState) (tid : String) : Except String (List Message) :=
  .ok ((sortByLe msgAsc (s.messages.filter fun r => r.thread_id == tid)).map
    (rowToMessage s.clock))

/-- db/messages.rs `delete_message`: `DELETE FROM messages WHERE id = ?1`. -/
def delete_message (s : DbState) (mid : String) : DbState :=
  { s with messages := s.messages.filter fun m => !(m.id == mid) }

/-- db/messages.rs `delete_messages_by_thread`:
`DELETE FROM messages WHERE thread_id = ?1`. -/
def delete_messages_by_thread (s : DbState) (tid : String) : DbState :=
  { s with messages := s.messages.filter fun m => !(m.thread_id == tid) }

/-- commands/settings.rs `mark_settings_submitted`:
`INSERT OR REPLACE INTO settings_submissions ... VALUES (?1, ?2,
datetime('now'))`.  When the table is absent the statement fails with
`no such table`.  Modelled from the spec: the repository contains no
`CREATE TABLE` for this ledger, so its key constraint is taken from the
spec's "keyed by `(tool_call_id, settings_key)` via upsert semantics" —
the replace removes any row with the same key pair. -/
def mark_settings_submitted (s : DbState) (toolCallId settingsKey : String) :
    Except String Unit × DbState :=
  match s.settings with
  | none => (.error "no such table: settings_submissions", s)
  | some rows =>
    (.ok (),
     { s with
       settings := some ((rows.filter fun r =>
           !(r.tool_call_id == toolCallId && r.settings_key == settingsKey)) ++
         [⟨toolCallId, settingsKey, renderTime s.clock⟩]),
       clock := s.clock + 1 })

/-- commands/settings.rs `is_settings_submitted`:
`SELECT COUNT(*) FROM settings_submissions WHERE tool_call_id = ?1`,
returning `count > 0`; fails with `no such table` when the ledger table
is absent. -/
def is_settings_submitted (s : DbState) (toolCallId : String) : Except String Bool :=
  match s.settings with
  | none => .error "no such table: settings_submissions"
  | some rows => .ok (rows.any fun r => r.tool_call_id == toolCallId)

/-- A sequence of `save_message` calls against one thread with no other
interleaved operation, collecting the returned messages; stops at the
first error. -/
def saveAll (s : DbState) (tid : String) : List NewMessage →
    Except String (List Message) × DbState
  | [] => (.ok [], s)
  | m :: ms =>
    match save_message s tid m with
    | (.ok msg, s1) =>
      match saveAll s1 tid ms with
      | (.ok rest, s2) => (.ok (msg :: rest), s2)
      | (.error e, s2) => (.error e, s2)
    | (.error e, s1) => (.error e, s1)

/-! ### Schema metadata (db/schema.rs at the DDL level) -/

/-- Table/column metadata of the backing file, as observable through
sqlite_master and `pragma_table_info`.  `none` means the table does not
exist; `some cols` lists its column names in order. -/
structure SchemaState where
  threadsCols : Option (List String)
  messagesCols : Option (List String)
  msgThreadIdx : Bool
  fkEnabled : Bool
  settingsCols : Option (List String)

def baseThreadCols : List String := ["id", "title", "created_at", "updated_at"]

def baseMessageCols : List String := ["id", "thread_id", "role", "content", "created_at"]

/-- `ALTER TABLE ... ADD COLUMN c`: SQLite fails with a duplicate column
name error when the column already exists. -/
def addColumn (cols : List String) (c : String) : Except String (List String) :=
  if c ∈ cols then .error ("duplicate column name: " ++ c) else .ok (cols ++ [c])

/-- db/schema.rs `init`: `CREATE TABLE IF NOT EXISTS` for `threads` and
`messages`, `CREATE INDEX IF NOT EXISTS` on `messages(thread_id)`,
`PRAGMA foreign_keys = ON`, then the additive migration: query
`pragma_table_info('messages')` for a `tool_invocations` column and run
the `ALTER TABLE` only when it is absent.  No statement concerns
`settings_submissions`. -/
def init (s : SchemaState) : Except String SchemaState :=
  let s1 : SchemaState :=
    { threadsCols := some (s.threadsCols.getD baseThreadCols),
      messagesCols := some (s.messagesCols.getD baseMessageCols),
      msgThreadIdx := true,
      fkEnabled := true,
      settingsCols := s.settingsCols }
  let cols := s1.messagesCols.getD []
  if "tool_invocations" ∈ cols then .ok s1
  else
    match addColumn cols "tool_invocations" with
    | .ok cols2 => .ok { s1 with messagesCols := some cols2 }
    | .error e => .error e

/-! ### Credentials (credentials.rs) -/

/-- Outcome of looking a key up in the OS keychain: a stored value, no
entry, or any keyring failure (including `Entry::new` failing). -/
inductive KeyringLookup where
  | found (v : String)
  | absent
  | failure (e : String)

def CREDENTIAL_KEYS : List String :=
  ["anthropic_api_key", "perplexity_api_key", "email_address", "email_username",
   "email_password", "email_imap_host", "email_imap_port", "email_imap_security",
   "email_smtp_host", "email_smtp_port", "email_smtp_security", "email_ssl_verify"]

/-- credentials.rs `get_credential`: `Ok(Some(..))` on success,
`NoEntry` becomes `Ok(None)`, every other error is stringified into
`Err`. -/
def get_credential (store : String → KeyringLookup) (key : String) :
    Except String (Option String) :=
  match store key with
  | .found v => .ok (some v)
  | .absent => .ok none
  | .failure e => .error e

/-- credentials.rs `get_all_credentials`: iterate over
`CREDENTIAL_KEYS`, inserting only the `Ok(Some(value))` outcomes, and
always return the accumulated map. -/
def get_all_credentials (store : String → KeyringLookup) :
    Except String (List (String × String)) :=
  .ok (CREDENTIAL_KEYS.filterMap fun key =>
    match get_credential store key with
    | .ok (some v) => some (key, v)
    | _ => none)

/-! ### Referential integrity invariant -/

/-- Every stored message references an existing thread row. -/
def dbInv (s : DbState) : Bool :=
  s.messages.all fun m => s.threads.any fun t => t.id == m.thread_id

theorem dbInv_iff (s : DbState) :
    dbInv s = true ↔ ∀ m ∈ s.messages, ∃ t ∈ s.threads, t.id = m.thread_id := by
  simp [dbInv, List.all_eq_true, List.any_eq_true]

/-! ### Claim theorems -/

/-- C1: saving a message against a thread id that matches no row in the
threads table fails with the referential-integrity error and leaves the
database state unchanged — no message row is inserted and no thread's
`updated_at` is refreshed — provided the session enforces foreign keys,
as `schema::init` guarantees. -/
theorem save_message_unknown_thread_fails (s : DbState) (tid : String)
    (m : NewMessage) (hfk : s.fkEnabled = true)
    (hno : ∀ t ∈ s.threads, t.id ≠ tid) :
    (save_message s tid m).1 = .error "FOREIGN KEY constraint failed" ∧
    (save_message s tid m).2 = s := by
  have hany : (s.threads.any fun t => t.id == tid) = false := by
    rw [List.any_eq_false]
    intro t ht
    simpa using hno t ht
  rw [save_message, hfk, hany]
  simp

def c1State : DbState := ⟨[], [], none, true, 0, 0⟩

def c1Msg : NewMessage := ⟨"user", "hi", none⟩

theorem save_message_unknown_thread_fails_witness :
    (save_message c1State "t1" c1Msg).1 = .error "FOREIGN KEY constraint failed" ∧
    (save_message c1State "t1" c1Msg).2 = c1State :=
  save_message_unknown_thread_fails c1State "t1" c1Msg rfl (by simp [c1State])

/-- C2 (code bug): `schema::init` never creates the
`settings_submissions` table, so on a database state produced by schema
initialization from a fresh file the very first `mark_settings_submitted`
fails with `no such table` instead of succeeding — the claimed
idempotent upsert is unreachable. -/
theorem mark_settings_submitted_no_table :
    (mark_settings_submitted (initDb ⟨[], [], none, false, 0, 0⟩) "tc1" "sk1").1 =
      .error "no such table: settings_submissions" ∧
    (initDb ⟨[], [], none, false, 0, 0⟩).settings = none :=
  ⟨rfl, rfl⟩

theorem exists_mem_map_with_id (l : List ThreadRow) (f : ThreadRow → ThreadRow)
    (hf : ∀ t, (f t).id = t.id) (i : String) (h : ∃ t ∈ l, t.id = i) :
    ∃ t ∈ l.map f, t.id = i := by
  obtain ⟨t, ht, hid⟩ := h
  exact ⟨f t, List.mem_map_of_mem f ht, by rw [hf t, hid]⟩

/-- C4: in a foreign-key-enforcing session, the invariant that every
message's `thread_id` references an existing thread is preserved by
every mutating operation, and deleting a thread removes all of its
messages, so listing that thread's messages afterwards returns the
empty list rather than an error. -/
theorem referential_integrity_preserved (s : DbState) (hfk : s.fkEnabled = true)
    (hinv : dbInv s = true) :
    dbInv (create_thread s).2 = true ∧
    (∀ tid m, dbInv (save_message s tid m).2 = true) ∧
    (∀ tid, dbInv (delete_thread s tid) = true) ∧
    (∀ mid, dbInv (delete_message s mid) = true) ∧
    (∀ tid title, dbInv (update_thread_title s tid title) = true) ∧
    (∀ tid, dbInv (update_thread_timestamp s tid) = true) ∧
    (∀ tid, dbInv (delete_messages_by_thread s tid) = true) ∧
    (∀ tid, get_messages (delete_thread s tid) tid = .ok []) := by
  rw [dbInv_iff] at hinv
  refine ⟨?_, ?_, ?_, ?_, ?_, ?_, ?_, ?_⟩
  · rw [dbInv_iff]
    intro msg hm
    simp only [create_thread] at hm
    obtain ⟨t, ht, hid⟩ := hinv msg hm
    exact ⟨t, by simp [create_thread, ht], hid⟩
  · intro tid m
    rw [dbInv_iff]
    by_cases hc : (s.fkEnabled && !(s.threads.any fun t => t.id == tid)) = true
    · rw [save_message, if_pos hc]
      exact hinv
    · rw [save_message, if_neg hc]
      intro msg hm
      simp only [update_thread_timestamp] at hm ⊢
      rcases List.mem_append.mp hm with hm1 | hm1
      · exact exists_mem_map_with_id _ _
          (by intro t; by_cases h : t.id = tid <;> simp [h]) _ (hinv msg hm1)
      · have hex : ∃ t ∈ s.threads, t.id = tid := by
          rw [hfk] at hc
          simp at hc
          obtain ⟨t, ht, hid⟩ := hc
          exact ⟨t, ht, hid⟩
        simp at hm1
        rw [hm1]
        exact exists_mem_map_with_id _ _
          (by intro t; by_cases h : t.id = tid <;> simp [h]) _ hex
  · intro tid
    rw [dbInv_iff]
    intro msg hm
    by_cases hex : (s.threads.any fun t => t.id == tid) = true
    · simp only [delete_thread, hfk, hex, Bool.true_and, if_pos] at hm
      rw [List.mem_filter] at hm
      obtain ⟨hm1, hm2⟩ := hm
      obtain ⟨t, ht, hid⟩ := hinv msg hm1
      refine ⟨t, ?_, hid⟩
      simp only [delete_thread, List.mem_filter]
      refine ⟨ht, ?_⟩
      simp at hm2 ⊢
      rw [hid]
      exact hm2
    · have hexf : (s.threads.any fun t => t.id == tid) = false := by simpa using hex
      simp [delete_thread, hexf] at hm
      obtain ⟨t, ht, hid⟩ := hinv msg hm
      have htid : t.id ≠ tid := by
        rw [List.any_eq_false] at hexf
        simpa using hexf t ht
      refine ⟨t, ?_, hid⟩
      simp only [delete_thread, List.mem_filter]
      exact ⟨ht, by simp [htid]⟩
  · intro mid
    rw [dbInv_iff]
    intro msg hm
    rw [delete_message] at hm
    simp only [List.mem_filter] at hm
    exact hinv msg hm.1
  · intro tid title
    rw [dbInv_iff]
    intro msg hm
    rw [update_thread_title] at hm
    exact exists_mem_map_with_id _ _
      (by intro t; by_cases h : t.id = tid <;> simp [h]) _ (hinv msg hm)
  · intro tid
    rw [dbInv_iff]
    intro msg hm
    rw [update_thread_timestamp] at hm
    exact exists_mem_map_with_id _ _
      (by intro t; by_cases h : t.id = tid <;> simp [h]) _ (hinv msg hm)
  · intro tid
    rw [dbInv_iff]
    intro msg hm
    rw [delete_messages_by_thread] at hm
    simp only [List.mem_filter] at hm
    exact hinv msg hm.1
  · intro tid
    rw [get_messages]
    have hnil : ((delete_thread s tid).messages.filter fun r => r.thread_id == tid) = [] := by
      by_cases hex : (s.threads.any fun t => t.id == tid) = true
      · simp only [delete_thread, hfk, hex, Bool.true_and, if_pos]
        rw [List.filter_eq_nil_iff]
        intro m hm
        rw [List.mem_filter] at hm
        simpa using hm.2
      · have hexf : (s.threads.any fun t => t.id == tid) = false := by simpa using hex
        simp [delete_thread, hexf]
        intro m hm
        obtain ⟨t, ht, hid⟩ := hinv m hm
        rw [List.any_eq_false] at hexf
        have := hexf t ht
        simp at this
        rw [← hid]
        exact this
    rw [hnil]
    rfl

def c4State : DbState :=
  ⟨[⟨"t1", none, renderTime 0, renderTime 0⟩],
   [⟨"m1", "t1", "user", "hi", none, renderTime 0⟩], none, true, 1, 1⟩

theorem referential_integrity_preserved_witness :
    dbInv c4State = true ∧
    get_messages (delete_thread c4State "t1") "t1" = .ok [] ∧
    dbInv (delete_thread c4State "t1") = true :=
  ⟨by decide,
   (referential_integrity_preserved c4State rfl (by decide)).2.2.2.2.2.2.2 "t1",
   (referential_integrity_preserved c4State rfl (by decide)).2.2.1 "t1"⟩

/-- C6: a successful `save_message` against an existing thread `tid`
leaves, in the resulting state, the inserted message row and a thread
row for `tid` whose stored `updated_at` parses to a time at least the
returned message's `created_at` — both writes happen inside the one
`save_message` call. -/
theorem save_message_touches_thread (s : DbState) (tid : String) (m : NewMessage)
    (msg : Message) (s' : DbState) (hclock : s.clock + 1 < 10 ^ 20)
    (hex : (s.threads.any fun t => t.id == tid) = true)
    (hsave : save_message s tid m = (.ok msg, s')) :
    ∃ row ∈ s'.threads, row.id = tid ∧
      (∃ t, parseTime row.updated_at = some t ∧ msg.created_at ≤ t) ∧
      ∃ mrow ∈ s'.messages, mrow.id = msg.id ∧ mrow.thread_id = tid := by
  rw [save_message, hex] at hsave
  simp only [Bool.not_true, Bool.and_false, Bool.false_eq_true, if_false] at hsave
  rw [Prod.mk.injEq] at hsave
  obtain ⟨h1, h2⟩ := hsave
  injection h1 with hm
  subst h2
  obtain ⟨t0, ht0, hid0⟩ : ∃ t ∈ s.threads, t.id = tid := by simpa using hex
  refine ⟨{t0 with updated_at := renderTime (s.clock + 1)}, ?_, by simp [hid0], ?_, ?_⟩
  · simp only [update_thread_timestamp]
    refine List.mem_map.mpr ⟨t0, ht0, ?_⟩
    simp [hid0]
  · refine ⟨s.clock + 1, parseTime_renderTime _ hclock, ?_⟩
    rw [← hm]
    show s.clock ≤ s.clock + 1
    omega
  · refine ⟨⟨uuidString s.uuidCtr, tid, m.role, m.content,
      m.tool_invocations.map (fun ti => renderJsonString (Json.Array ti)),
      renderTime s.clock⟩, ?_, ?_, rfl⟩
    · simp [update_thread_timestamp]
    · rw [← hm]

/-- C5: a message saved with a present `tool_invocations` payload is
returned by a subsequent `get_messages` on the same thread with a
payload equal to the original: the stored serialized text parses back
to the saved list. -/
theorem tool_invocations_roundtrip (s : DbState) (tid : String) (m : NewMessage)
    (ti : List Json) (msg : Message) (s' : DbState)
    (hti : m.tool_invocations = some ti)
    (hsave : save_message s tid m = (.ok msg, s')) :
    ∃ l, get_messages s' tid = .ok l ∧
      ∃ r ∈ l, r.id = msg.id ∧ r.tool_invocations = some ti := by
  rw [save_message] at hsave
  by_cases hc : (s.fkEnabled && !(s.threads.any fun t => t.id == tid)) = true
  · rw [if_pos hc, Prod.mk.injEq] at hsave
    exact absurd hsave.1 (by simp)
  · rw [if_neg hc, Prod.mk.injEq] at hsave
    obtain ⟨h1, h2⟩ := hsave
    injection h1 with hm
    subst h2
    refine ⟨_, rfl, ?_⟩
    refine ⟨rowToMessage
      (update_thread_timestamp
        { s with
          messages := s.messages ++
            [⟨uuidString s.uuidCtr, tid, m.role, m.content,
              m.tool_invocations.map (fun ti => renderJsonString (Json.Array ti)),
              renderTime s.clock⟩],
          clock := s.clock + 1,
          uuidCtr := s.uuidCtr + 1 } tid).clock
      ⟨uuidString s.uuidCtr, tid, m.role, m.content,
        m.tool_invocations.map (fun ti => renderJsonString (Json.Array ti)),
        renderTime s.clock⟩, ?_, ?_, ?_⟩
    · refine List.mem_map.mpr ⟨_, ?_, rfl⟩
      rw [mem_sortByLe, List.mem_filter]
      refine ⟨?_, by simp⟩
      simp [update_thread_timestamp]
    · rw [← hm]
      rfl
    · simp [rowToMessage, hti, parseToolInvocations_render]

def c6State : DbState := ⟨[⟨"t1", none, renderTime 0, renderTime 0⟩], [], none, true, 1, 0⟩

def c6Msg : Message := ⟨uuidString 0, "t1", "user", "hi", none, 1⟩

def c6Final : DbState :=
  ⟨[⟨"t1", none, renderTime 0, renderTime 2⟩],
   [⟨uuidString 0, "t1", "user", "hi", none, renderTime 1⟩], none, true, 3, 1⟩

theorem save_message_touches_thread_witness :
    ∃ row ∈ c6Final.threads, row.id = "t1" ∧
      (∃ t, parseTime row.updated_at = some t ∧ c6Msg.created_at ≤ t) ∧
      ∃ mrow ∈ c6Final.messages, mrow.id = c6Msg.id ∧ mrow.thread_id = "t1" :=
  save_message_touches_thread c6State "t1" ⟨"user", "hi", none⟩ c6Msg c6Final
    (by decide) rfl rfl

def c5State : DbState := ⟨[⟨"t1", none, renderTime 0, renderTime 0⟩], [], none, true, 1, 0⟩

def c5Msg : Message := ⟨uuidString 0, "t1", "user", "hi", some [Json.Null], 1⟩

def c5Final : DbState :=
  ⟨[⟨"t1", none, renderTime 0, renderTime 2⟩],
   [⟨uuidString 0, "t1", "user", "hi",
     some (renderJsonString (Json.Array [Json.Null])), renderTime 1⟩], none, true, 3, 1⟩

theorem tool_invocations_roundtrip_witness :
    ∃ l, get_messages c5Final "t1" = .ok l ∧
      ∃ r ∈ l, r.id = c5Msg.id ∧ r.tool_invocations = some [Json.Null] :=
  tool_invocations_roundtrip c5State "t1" ⟨"user", "hi", some [Json.Null]⟩
    [Json.Null] c5Msg c5Final rfl rfl

/-- C7: a stored message row whose `tool_invocations` text does not
decode as a JSON array is still returned by `get_messages` — the query
succeeds — with the payload degraded to absent. -/
theorem corrupt_payload_degrades (s : DbState) (tid : String) (r : MessageRow)
    (hmem : r ∈ s.messages) (htid : r.thread_id = tid)
    (hjunk : ∃ junk, r.tool_invocations = some junk ∧ parseToolInvocations junk = none) :
    ∃ l, get_messages s tid = .ok l ∧
      ∃ msg ∈ l, msg.id = r.id ∧ msg.content = r.content ∧
        msg.tool_invocations = none := by
  obtain ⟨junk, hj1, hj2⟩ := hjunk
  refine ⟨_, rfl, ⟨rowToMessage s.clock r, ?_, rfl, rfl, ?_⟩⟩
  · refine List.mem_map.mpr ⟨r, ?_, rfl⟩
    rw [mem_sortByLe, List.mem_filter]
    exact ⟨hmem, by simp [htid]⟩
  · simp [rowToMessage, hj1, hj2]

def c7State : DbState :=
  ⟨[⟨"t1", none, renderTime 0, renderTime 0⟩],
   [⟨"m1", "t1", "user", "hi", some "not json", renderTime 0⟩], none, true, 1, 1⟩

theorem corrupt_payload_degrades_witness :
    ∃ l, get_messages c7State "t1" = .ok l ∧
      ∃ msg ∈ l, msg.id = "m1" ∧ msg.content = "hi" ∧ msg.tool_invocations = none :=
  corrupt_payload_degrades c7State "t1"
    ⟨"m1", "t1", "user", "hi", some "not json", renderTime 0⟩
    (by simp [c7State]) rfl ⟨"not json", rfl, rfl⟩

/-- C9: rows whose stored timestamp text does not parse are still
returned successfully by `get_thread`, `list_threads` and
`get_messages`, with each unparseable timestamp replaced by the current
time. -/
theorem bad_timestamp_defaults_to_now (s : DbState) :
    (∀ id r, (s.threads.find? fun t => t.id == id) = some r →
      ∃ th, get_thread s id = .ok (some th) ∧ th.id = r.id ∧
        (parseTime r.created_at = none → th.created_at = s.clock) ∧
        (parseTime r.updated_at = none → th.updated_at = s.clock)) ∧
    (∀ r ∈ s.threads, ∃ l, list_threads s = .ok l ∧
      ∃ th ∈ l, th.id = r.id ∧
        (parseTime r.created_at = none → th.created_at = s.clock) ∧
        (parseTime r.updated_at = none → th.updated_at = s.clock)) ∧
    (∀ r ∈ s.messages, ∃ l, get_messages s r.thread_id = .ok l ∧
      ∃ msg ∈ l, msg.id = r.id ∧
        (parseTime r.created_at = none → msg.created_at = s.clock)) := by
  refine ⟨?_, ?_, ?_⟩
  · intro id r hfind
    refine ⟨rowToThread s.clock r, ?_, rfl, ?_, ?_⟩
    · rw [get_thread, hfind]
      rfl
    · intro hbad
      simp [rowToThread, hbad]
    · intro hbad
      simp [rowToThread, hbad]
  · intro r hr
    refine ⟨_, rfl, rowToThread s.clock r, ?_, rfl, ?_, ?_⟩
    · exact List.mem_map.mpr ⟨r, (mem_sortByLe _ _ _).mpr hr, rfl⟩
    · intro hbad
      simp [rowToThread, hbad]
    · intro hbad
      simp [rowToThread, hbad]
  · intro r hr
    refine ⟨_, rfl, rowToMessage s.clock r, ?_, rfl, ?_⟩
    · refine List.mem_map.mpr ⟨r, ?_, rfl⟩
      rw [mem_sortByLe, List.mem_filter]
      exact ⟨hr, by simp⟩
    · intro hbad
      simp [rowToMessage, hbad]

def c9State : DbState :=
  ⟨[⟨"t1", none, "garbage", "junk"⟩],
   [⟨"m1", "t1", "user", "hi", none, "bad"⟩], none, true, 7, 1⟩

theorem bad_timestamp_defaults_to_now_witness :
    (∃ th, get_thread c9State "t1" = .ok (some th) ∧ th.id = "t1" ∧
      th.created_at = 7 ∧ th.updated_at = 7) ∧
    (∃ l, list_threads c9State = .ok l ∧
      ∃ th ∈ l, th.id = "t1" ∧ th.created_at = 7 ∧ th.updated_at = 7) ∧
    (∃ l, get_messages c9State "t1" = .ok l ∧
      ∃ msg ∈ l, msg.id = "m1" ∧ msg.created_at = 7) := by
  refine ⟨?_, ?_, ?_⟩
  · obtain ⟨th, h1, h2, h3, h4⟩ := (bad_timestamp_defaults_to_now c9State).1 "t1"
      ⟨"t1", none, "garbage", "junk"⟩ rfl
    exact ⟨th, h1, h2, h3 rfl, h4 rfl⟩
  · obtain ⟨l, h1, th, h2, h3, h4, h5⟩ := (bad_timestamp_defaults_to_now c9State).2.1
      ⟨"t1", none, "garbage", "junk"⟩ (by simp [c9State])
    exact ⟨l, h1, th, h2, h3, h4 rfl, h5 rfl⟩
  · obtain ⟨l, h1, msg, h2, h3, h4⟩ := (bad_timestamp_defaults_to_now c9State).2.2
      ⟨"m1", "t1", "user", "hi", none, "bad"⟩ (by simp [c9State])
    exact ⟨l, h1, msg, h2, h3, h4 rfl⟩

/-! ### C3 support: the rows and messages a run of saves produces -/

def mkRow (ctr clock : Nat) (tid : String) (m : NewMessage) : MessageRow :=
  ⟨uuidString ctr, tid, m.role, m.content,
   m.tool_invocations.map (fun ti => renderJsonString (Json.Array ti)), renderTime clock⟩

def mkMsg (ctr clock : Nat) (tid : String) (m : NewMessage) : Message :=
  ⟨uuidString ctr, tid, m.role, m.content, m.tool_invocations, clock⟩

def expectedRows (ctr clock : Nat) (tid : String) : List NewMessage → List MessageRow
  | [] => []
  | m :: ms => mkRow ctr clock tid m :: expectedRows (ctr + 1) (clock + 2) tid ms

def expectedMsgs (ctr clock : Nat) (tid : String) : List NewMessage → List Message
  | [] => []
  | m :: ms => mkMsg ctr clock tid m :: expectedMsgs (ctr + 1) (clock + 2) tid ms

theorem saveAll_cons_err (s : DbState) (tid : String) (m : NewMessage)
    (ms : List NewMessage)
    (hc : (s.fkEnabled && !(s.threads.any fun t => t.id == tid)) = true) :
    saveAll s tid (m :: ms) = (.error "FOREIGN KEY constraint failed", s) := by
  rw [saveAll, save_message, if_pos hc]

theorem saveAll_cons_ok (s : DbState) (tid : String) (m : NewMessage)
    (ms : List NewMessage)
    (hc : (s.fkEnabled && !(s.threads.any fun t => t.id == tid)) = false) :
    saveAll s tid (m :: ms) =
      match saveAll (update_thread_timestamp
          { s with
            messages := s.messages ++ [mkRow s.uuidCtr s.clock tid m],
            clock := s.clock + 1, uuidCtr := s.uuidCtr + 1 } tid) tid ms with
      | (.ok rest, s2) => (.ok (mkMsg s.uuidCtr s.clock tid m :: rest), s2)
      | (.error e, s2) => (.error e, s2) := by
  rw [saveAll, save_message, if_neg (by simp [hc])]
  rfl

theorem saveAll_ok (tid : String) (ms : List NewMessage) :
    ∀ s msgs s', saveAll s tid ms = (.ok msgs, s') →
      msgs = expectedMsgs s.uuidCtr s.clock tid ms ∧
      s'.messages = s.messages ++ expectedRows s.uuidCtr s.clock tid ms ∧
      s'.clock = s.clock + 2 * ms.length := by
  induction ms with
  | nil =>
    intro s msgs s' h
    rw [saveAll, Prod.mk.injEq] at h
    obtain ⟨h1, h2⟩ := h
    injection h1 with h1
    subst h2
    simp [← h1, expectedMsgs, expectedRows]
  | cons m ms ih =>
    intro s msgs s' h
    by_cases hc : (s.fkEnabled && !(s.threads.any fun t => t.id == tid)) = true
    · rw [saveAll_cons_err s tid m ms hc, Prod.mk.injEq] at h
      exact absurd h.1 (by simp)
    · rw [saveAll_cons_ok s tid m ms (by simpa using hc)] at h
      rcases h2 : saveAll (update_thread_timestamp
          { s with
            messages := s.messages ++ [mkRow s.uuidCtr s.clock tid m],
            clock := s.clock + 1, uuidCtr := s.uuidCtr + 1 } tid) tid ms with ⟨res, s2⟩
      rw [h2] at h
      cases res with
      | error e => simp at h
      | ok rest =>
        simp only [Prod.mk.injEq] at h
        obtain ⟨h1, hs⟩ := h
        injection h1 with h1
        subst hs
        obtain ⟨ihm, ihrows, ihclk⟩ := ih _ _ _ h2
        refine ⟨?_, ?_, ?_⟩
        · rw [← h1, ihm]
          rfl
        · rw [ihrows]
          simp [update_thread_timestamp, expectedRows]
        · rw [ihclk]
          simp [update_thread_timestamp, List.length_cons]
          omega

theorem expectedRows_thread (ctr clock : Nat) (tid : String) (ms : List NewMessage) :
    ∀ r ∈ expectedRows ctr clock tid ms, r.thread_id = tid := by
  induction ms generalizing ctr clock with
  | nil => simp [expectedRows]
  | cons m ms ih =>
    intro r hr
    rw [expectedRows] at hr
    rcases List.mem_cons.mp hr with h | h
    · rw [h]
      rfl
    · exact ih _ _ r h

theorem expectedRows_filter (ctr clock : Nat) (tid : String) (ms : List NewMessage) :
    (expectedRows ctr clock tid ms).filter (fun r => r.thread_id == tid) =
      expectedRows ctr clock tid ms := by
  rw [List.filter_eq_self]
  intro r hr
  simp [expectedRows_thread ctr clock tid ms r hr]

theorem expectedRows_created (tid : String) (ms : List NewMessage) :
    ∀ ctr clock, ∀ r ∈ expectedRows ctr clock tid ms,
      ∃ c, clock ≤ c ∧ c < clock + 2 * ms.length ∧ r.created_at = renderTime c := by
  induction ms with
  | nil => simp [expectedRows]
  | cons m ms ih =>
    intro ctr clock r hr
    rw [expectedRows] at hr
    rcases List.mem_cons.mp hr with h | h
    · refine ⟨clock, le_rfl, ?_, by rw [h]; rfl⟩
      rw [List.length_cons]
      omega
    · obtain ⟨c, h1, h2, h3⟩ := ih (ctr + 1) (clock + 2) r h
      refine ⟨c, by omega, ?_, h3⟩
      rw [List.length_cons]
      omega

theorem expectedRows_pairwise (tid : String) (ms : List NewMessage) :
    ∀ ctr clock, clock + 2 * ms.length ≤ 10 ^ 20 →
      (expectedRows ctr clock tid ms).Pairwise fun a b => msgAsc a b = true := by
  induction ms with
  | nil =>
    intro ctr clock _
    simp [expectedRows]
  | cons m ms ih =>
    intro ctr clock h
    rw [List.length_cons] at h
    rw [expectedRows]
    refine List.Pairwise.cons ?_ (ih (ctr + 1) (clock + 2) (by omega))
    intro b hb
    obtain ⟨c, h1, h2, h3⟩ := expectedRows_created tid ms (ctr + 1) (clock + 2) b hb
    have hlt : textLt (renderTime clock).data (renderTime c).data = true :=
      textLt_renderTime clock c (by omega) (by omega)
    simp [msgAsc, mkRow, h3, textLt_asymm _ _ hlt]

theorem expectedRows_map (tid : String) (ms : List NewMessage) :
    ∀ ctr clock now, clock + 2 * ms.length ≤ 10 ^ 20 →
      (expectedRows ctr clock tid ms).map (rowToMessage now) =
        expectedMsgs ctr clock tid ms := by
  induction ms with
  | nil =>
    intro ctr clock now _
    simp [expectedRows, expectedMsgs]
  | cons m ms ih =>
    intro ctr clock now h
    rw [List.length_cons] at h
    rw [expectedRows, expectedMsgs, List.map_cons]
    have hclock : clock < 10 ^ 20 := by omega
    refine congrArg₂ List.cons ?_ (ih (ctr + 1) (clock + 2) now (by omega))
    cases hti : m.tool_invocations with
    | none => simp [rowToMessage, mkRow, mkMsg, hti, parseTime_renderTime _ hclock]
    | some ti =>
      simp [rowToMessage, mkRow, mkMsg, hti, parseTime_renderTime _ hclock,
        parseToolInvocations_render]

/-- C3: when `N` messages with pairwise-distinct contents are saved to
one thread with no interleaved operation, starting from a state holding
no messages for that thread, `get_messages` on the resulting state
returns exactly the `N` returned messages in save order. -/
theorem get_messages_save_order (s : DbState) (tid : String) (ms : List NewMessage)
    (msgs : List Message) (s' : DbState)
    (hsave : saveAll s tid ms = (.ok msgs, s'))
    (hempty : s.messages.filter (fun r => r.thread_id == tid) = [])
    (hbound : s.clock + 2 * ms.length ≤ 10 ^ 20)
    (_hdist : ms.Pairwise fun a b => a.content ≠ b.content) :
    get_messages s' tid = .ok msgs := by
  obtain ⟨hmsgs, hrows, hclk⟩ := saveAll_ok tid ms s msgs s' hsave
  rw [get_messages, hrows, List.filter_append, hempty, List.nil_append,
    expectedRows_filter,
    sortByLe_eq_self _ _ (expectedRows_pairwise tid ms s.uuidCtr s.clock hbound),
    expectedRows_map tid ms s.uuidCtr s.clock s'.clock hbound, ← hmsgs]

def c3State : DbState := ⟨[⟨"t1", none, renderTime 0, renderTime 0⟩], [], none, true, 1, 0⟩

def c3Msgs : List Message :=
  [⟨uuidString 0, "t1", "user", "hi", none, 1⟩,
   ⟨uuidString 1, "t1", "assistant", "yo", none, 3⟩]

def c3Final : DbState :=
  ⟨[⟨"t1", none, renderTime 0, renderTime 4⟩],
   [⟨uuidString 0, "t1", "user", "hi", none, renderTime 1⟩,
    ⟨uuidString 1, "t1", "assistant", "yo", none, renderTime 3⟩], none, true, 5, 2⟩

theorem get_messages_save_order_witness :
    saveAll c3State "t1" [⟨"user", "hi", none⟩, ⟨"assistant", "yo", none⟩] =
      (.ok c3Msgs, c3Final) ∧
    get_messages c3Final "t1" = .ok c3Msgs :=
  ⟨rfl,
   get_messages_save_order c3State "t1" [⟨"user", "hi", none⟩, ⟨"assistant", "yo", none⟩]
     c3Msgs c3Final rfl rfl (by decide)
     (by simp +decide [List.pairwise_cons])⟩

/-- C8: `init` succeeds on every schema state — the migration is decided
by inspecting the column metadata, so an already-present
`tool_invocations` column never triggers the failing duplicate-column
`ALTER TABLE` — a second run on the resulting state succeeds and leaves
the schema unchanged, and the resulting `messages` table always carries
the `tool_invocations` column. -/
theorem init_idempotent (s : SchemaState) :
    ∃ s' cols, init s = .ok s' ∧ init s' = .ok s' ∧
      s'.messagesCols = some cols ∧ "tool_invocations" ∈ cols := by
  cases hm : s.messagesCols with
  | none =>
    refine ⟨⟨some (s.threadsCols.getD baseThreadCols),
        some (baseMessageCols ++ ["tool_invocations"]), true, true, s.settingsCols⟩,
      baseMessageCols ++ ["tool_invocations"], ?_, ?_, rfl, by simp⟩
    · simp +decide [init, hm, addColumn, baseMessageCols]
    · simp +decide [init, addColumn, baseMessageCols]
  | some cols =>
    by_cases hti : "tool_invocations" ∈ cols
    · refine ⟨⟨some (s.threadsCols.getD baseThreadCols), some cols, true, true,
        s.settingsCols⟩, cols, ?_, ?_, rfl, hti⟩
      · simp [init, hm, hti]
      · simp [init, hti]
    · refine ⟨⟨some (s.threadsCols.getD baseThreadCols),
        some (cols ++ ["tool_invocations"]), true, true, s.settingsCols⟩,
        cols ++ ["tool_invocations"], ?_, ?_, rfl, by simp⟩
      · simp [init, hm, hti, addColumn]
      · simp [init, addColumn]

theorem init_idempotent_witness :
    ∃ s' cols, init ⟨none, none, false, false, none⟩ = .ok s' ∧
      init s' = .ok s' ∧ s'.messagesCols = some cols ∧
      "tool_invocations" ∈ cols :=
  init_idempotent ⟨none, none, false, false, none⟩

/-- C10: `get_all_credentials` returns success for every state of the
secret store, and the returned map holds exactly the known keys whose
individual lookup succeeded with a present value. -/
theorem get_all_credentials_total (store : String → KeyringLookup) :
    ∃ l, get_all_credentials store = .ok l ∧
      ∀ k v, (k, v) ∈ l ↔
        k ∈ CREDENTIAL_KEYS ∧ get_credential store k = .ok (some v) := by
  refine ⟨_, rfl, ?_⟩
  intro k v
  rw [List.mem_filterMap]
  constructor
  · rintro ⟨a, ha, hfa⟩
    cases hga : get_credential store a with
    | error e =>
      rw [hga] at hfa
      simp at hfa
    | ok ov =>
      cases ov with
      | none =>
        rw [hga] at hfa
        simp at hfa
      | some w =>
        rw [hga] at hfa
        simp at hfa
        obtain ⟨hk, hv⟩ := hfa
        subst hk
        subst hv
        exact ⟨ha, hga⟩
  · rintro ⟨hk, hg⟩
    exact ⟨k, hk, by rw [hg]⟩

theorem get_all_credentials_total_witness :
    ∃ l, get_all_credentials (fun _ => KeyringLookup.absent) = .ok l ∧
      ∀ k v, (k, v) ∈ l ↔
        k ∈ CREDENTIAL_KEYS ∧
          get_credential (fun _ => KeyringLookup.absent) k = .ok (some v) :=
  get_all_credentials_total (fun _ => KeyringLookup.absent)
